import Mathlib

/-!
Shallow embedding of `lingvo/core/step.py`: the step-by-step sequence
processing abstraction (`Step`, `StatelessLayerStep`, `StackStep`,
`GraphStep`) and the collaborators it uses from `builder_layers`
(`GraphSignature`, `GraphTensors`), the latter modelled from the spec
because their source is not part of this extract.

Tensors are modelled as an inductive expression tree recording the
operations the module performs on them (`tf.concat` along the feature
axis, `+` for residual connections); everything else is the control
structure translated from the source.
-/

set_option autoImplicit false

namespace Lingvo

/-- Symbolic tensor values: opaque leaves, residual addition (`x += y` in
`StackStep.FProp`) and feature-axis concatenation (`tf.concat(inputs, axis=1)`). -/
inductive Tensor where
  | base : Nat → Tensor
  | add : Tensor → Tensor → Tensor
  | concat : List Tensor → Tensor

instance : Inhabited Tensor := ⟨Tensor.concat []⟩

/-- Structured values (`NestedMap` trees in the source): a tensor leaf, a
list, or an ordered string-keyed mapping. -/
inductive TVal where
  | tensor : Tensor → TVal
  | tlist : List TVal → TVal
  | tmap : List (String × TVal) → TVal

instance : Inhabited TVal := ⟨TVal.tmap []⟩

/-- Structural shape of a `TVal`: the tree with tensor contents erased.
Two values have the same shape iff they have the same nesting structure
and keys. -/
inductive TShape where
  | leaf : TShape
  | slist : List TShape → TShape
  | smap : List (String × TShape) → TShape

mutual

/-- Shape (structure) of a structured value. -/
def TVal.shape : TVal → TShape
  | .tensor _ => .leaf
  | .tlist xs => .slist (TVal.shapeList xs)
  | .tmap es => .smap (TVal.shapeMap es)

/-- Shapes of a list of structured values. -/
def TVal.shapeList : List TVal → List TShape
  | [] => []
  | x :: xs => x.shape :: TVal.shapeList xs

/-- Shapes of the entries of a string-keyed mapping. -/
def TVal.shapeMap : List (String × TVal) → List (String × TShape)
  | [] => []
  | (k, v) :: es => (k, v.shape) :: TVal.shapeMap es

end

/-- Python list indexing semantics: nonnegative indices from the front,
negative indices from the back, `none` when out of range either way. -/
def pyGet {α : Type} (xs : List α) (k : Int) : Option α :=
  if 0 ≤ k then xs.get? k.toNat
  else if 0 ≤ k + xs.length then xs.get? (k + xs.length).toNat
  else none

/-- First element of a list, or an index error (Python `l[0]`). -/
def headE {α : Type} (xs : List α) : Except String α :=
  match xs with
  | [] => .error "IndexError"
  | x :: _ => .ok x

/-- Lookup in an ordered string-keyed association list. -/
def findKey (es : List (String × TVal)) (k : String) : Option TVal :=
  match es with
  | [] => none
  | (k', v) :: rest => if k' = k then some v else findKey rest k

/-- Assignment on an ordered string-keyed association list: overwrite an
existing key in place, otherwise append (dict `__setitem__` semantics). -/
def setKey (es : List (String × TVal)) (k : String) (v : TVal) : List (String × TVal) :=
  match es with
  | [] => [(k, v)]
  | (k', v') :: rest => if k' = k then (k, v) :: rest else (k', v') :: setKey rest k v

/-- Modelled from the spec: a reference path used by signatures —
`identifier("."identifier | "[int]")*` — addressing a nested field or list
index within a previously stored value (`builder_layers.GraphSignature`
paths; that source file is not part of this extract). -/
inductive PathStep where
  | field : String → PathStep
  | index : Nat → PathStep

/-- Modelled from the spec: a parsed reference path — a root name followed
by field/index steps. -/
structure RefPath where
  root : String
  steps : List PathStep

/-- Walk the field/index steps of a reference path into a structured value;
fails with a lookup error if any segment is unresolved. -/
def TVal.walk : TVal → List PathStep → Except String TVal
  | v, [] => .ok v
  | v, step :: rest =>
    match v, step with
    | .tmap es, .field f =>
      match findKey es f with
      | some v2 => v2.walk rest
      | none => .error ("LookupError: " ++ f)
    | .tlist xs, .index i =>
      match xs.get? i with
      | some v2 => v2.walk rest
      | none => .error "LookupError: index"
    | _, _ => .error "LookupError: bad path"

/-- Modelled from the spec: `builder_layers.GraphTensors`, the per-call
scoped tensor registry (its source is not part of this extract). A mapping
from top-level names to structured values, populated incrementally. -/
structure GraphTensors where
  entries : List (String × TVal)

/-- Fresh, empty registry. -/
def GraphTensors.empty : GraphTensors := ⟨[]⟩

/-- Modelled from the spec: `StoreTensor(name, value)` registers a value
under a name; it fails if the name already exists in the scope. -/
def GraphTensors.StoreTensor (gt : GraphTensors) (name : String) (v : TVal) :
    Except String GraphTensors :=
  match findKey gt.entries name with
  | some _ => .error ("duplicate tensor name: " ++ name)
  | none => .ok ⟨gt.entries ++ [(name, v)]⟩

/-- Modelled from the spec: `GetTensor(path)` resolves a dotted/indexed
reference path against previously stored values; it fails with a lookup
error if any path segment is unresolved. -/
def GraphTensors.GetTensor (gt : GraphTensors) (p : RefPath) : Except String TVal :=
  match findKey gt.entries p.root with
  | some v => v.walk p.steps
  | none => .error ("KeyError: " ++ p.root)

/-- Modelled from the spec: one input reference-group of a signature —
either a bare reference path, or `name=[path1,path2,...]`. -/
inductive InputGroup where
  | bare : RefPath → InputGroup
  | named : String → List RefPath → InputGroup

/-- Modelled from the spec: the parsed form of a signature string
`"(" input-group ")" "->" out1,out2,...` — an ordered list of input
reference-groups and an ordered list of output names
(`builder_layers.GraphSignature`; its source is not part of this extract). -/
structure GraphSignature where
  inputs : List InputGroup
  outputs : List String

/-- Resolution of one input group against the registry, as performed by
`template.Transform(graph_tensors.GetTensor)` in the source: a bare path
resolves to its value; a named group resolves to a one-entry map holding
the list of resolved paths. -/
def resolveGroup (gt : GraphTensors) : InputGroup → Except String TVal
  | .bare p => gt.GetTensor p
  | .named n ps => do
    let vs ← ps.mapM gt.GetTensor
    .ok (TVal.tmap [(n, TVal.tlist vs)])

/-! ### StatelessLayerStep

Translated from `StatelessLayerStep` in `step.py`. The wrapped layer's
weights are baked into its forward function (the source threads
`theta.layer` to it); a `padding` of `none` corresponds to the `padding`
keyword argument not being passed. -/

/-- A wrapped non-recurrent layer: its `FProp` maps `step_inputs.inputs`
(and the optional padding) to an output value. -/
structure Layer where
  FProp : TVal → Option Tensor → TVal

/-- Per-timestep input of a stateless layer step: a `NestedMap` with field
`inputs`, which is passed directly to the layer. -/
structure SLInputs where
  inputs : TVal

/-- Translated from `StatelessLayerStep.PrepareExternalInputs`: stateless
layers do not use external inputs; returns an empty `NestedMap`. -/
def StatelessLayerStep.PrepareExternalInputs (_layer : Layer) (_external_inputs : TVal) :
    TVal :=
  TVal.tmap []

/-- Translated from `StatelessLayerStep.ZeroState`: stateless layers have
no state; returns an empty `NestedMap`. -/
def StatelessLayerStep.ZeroState (_layer : Layer) (_external_inputs : TVal)
    (_batch_size : Nat) : TVal :=
  TVal.tmap []

/-- Translated from `StatelessLayerStep.FProp`: the layer is invoked on
`step_inputs.inputs` (the `padding` kwarg passed only when not `None`);
`state0` is deleted and the returned state is an empty `NestedMap`. -/
def StatelessLayerStep.FProp (layer : Layer) (_external_inputs : Option TVal)
    (step_inputs : SLInputs) (padding : Option Tensor) (_state0 : TVal) :
    TVal × TVal :=
  (layer.FProp step_inputs.inputs padding, TVal.tmap [])

/-! ### StackStep

Translated from `StackStep` in `step.py`. Each sub-step accepts
`NestedMap(inputs=[...])` and produces `NestedMap(output=tensor)` (the
class contract stated in its docstring); a child is modelled as the three
step operations with its weights baked in (the source threads
`theta.sub[i]` to child `i`), its `FProp` mapping the input tensor list to
the output tensor and next state. -/

/-- A stack sub-step: the three step operations of a child conforming to
the stack convention, weights baked in. -/
structure StackChild where
  PrepareExternalInputs : TVal → TVal
  ZeroState : TVal → Nat → TVal
  FProp : TVal → List Tensor → Option Tensor → TVal → Tensor × TVal

/-- The `NestedMap(sub=[...])` shape used by `StackStep` for prepared
external inputs and for state. -/
structure StackSub where
  sub : List TVal

/-- Per-timestep input of a stack: a list called `inputs` and optionally a
tensor called `context`. -/
structure StackStepInputs where
  inputs : List Tensor
  context : Option Tensor

/-- The `NestedMap(output=tensor)` returned by `StackStep.FProp`. -/
structure StackOut where
  output : Tensor

/-- Translated from the residual-connection part of the loop body of
`StackStep.FProp` (`if i >= self.params.residual_start >= 0:` with the
source's `assert i + 1 - residual_stride < len(residual_inputs)` and the
Python-indexed read `residual_inputs[i + 1 - residual_stride]` added to
the raw output): the recorded output of child `i`. -/
def StackStep.residualOutput (residual_start residual_stride : Int) (i : Nat)
    (residual_inputs : List Tensor) (raw : Tensor) : Except String Tensor :=
  if residual_start ≤ (i : Int) ∧ 0 ≤ residual_start then
    if (i : Int) + 1 - residual_stride < (residual_inputs.length : Int) then
      match pyGet residual_inputs ((i : Int) + 1 - residual_stride) with
      | some r => .ok (Tensor.add raw r)
      | none => .error "IndexError: residual"
    else .error "AssertionError: residual_stride"
  else .ok raw

/-- Translated from the loop body of `StackStep.FProp` (`for i in
range(len(self.sub))`): at index `i` the child is invoked on
`inputs + additional`, its output gets the residual treatment of
`StackStep.residualOutput`, and the result is appended to
`residual_inputs` and becomes the next child's input. Returns the final
`residual_inputs` and `state1.sub` lists. -/
def StackStep.fpropLoop (residual_start residual_stride : Int) (padding : Option Tensor)
    (additional : List Tensor) :
    List StackChild → List TVal → List TVal → Nat → List Tensor → List Tensor →
    List TVal → Except String (List Tensor × List TVal)
  | [], _, _, _, _, residual_inputs, state1 => .ok (residual_inputs, state1)
  | _ :: _, [], _, _, _, _, _ => .error "IndexError: sub"
  | _ :: _, _ :: _, [], _, _, _, _ => .error "IndexError: sub"
  | c :: cs, ext :: exts, s0 :: states, i, inputs, residual_inputs, state1 =>
    let res := c.FProp ext (inputs ++ additional) padding s0
    (StackStep.residualOutput residual_start residual_stride i residual_inputs res.1).bind
      fun output =>
        StackStep.fpropLoop residual_start residual_stride padding additional cs exts states
          (i + 1) [output] (residual_inputs ++ [output]) (state1 ++ [res.2])

/-- The `additional` list of `StackStep.FProp`: `[step_inputs.context]`
when a context tensor is present, else empty; appended to every child's
inputs. -/
def stackAdditional (step_inputs : StackStepInputs) : List Tensor :=
  match step_inputs.context with
  | some c => [c]
  | none => []

/-- Translated from `StackStep.FProp`: seeds `residual_inputs` with
`tf.concat(step_inputs.inputs, axis=1)` (the virtual output of layer -1),
appends `step_inputs.context` to every child's inputs when present, runs
the sub-step loop, and returns `NestedMap(output=output)` of the top-most
child together with `state1`. An empty stack leaves the Python variable
`output` unbound (a `NameError`). -/
def StackStep.FProp (sub : List StackChild) (residual_start residual_stride : Int)
    (external_inputs : StackSub) (step_inputs : StackStepInputs) (padding : Option Tensor)
    (state0 : StackSub) : Except String (StackOut × StackSub) := do
  let inputs := step_inputs.inputs
  let (residual_inputs, st1) ← StackStep.fpropLoop residual_start residual_stride padding
    (stackAdditional step_inputs) sub external_inputs.sub state0.sub 0 inputs
    [Tensor.concat inputs] []
  match sub with
  | [] => .error "NameError: output"
  | _ :: _ =>
    match residual_inputs.getLast? with
    | some output => .ok (⟨output⟩, ⟨st1⟩)
    | none => .error "NameError: output"

/-- The `residual_inputs` list built by `StackStep.FProp`'s loop: entry 0
is the concatenated stack input, entry `i + 1` is the recorded
(post-residual) output of child `i`. -/
def StackStep.recordedOutputs (sub : List StackChild) (residual_start residual_stride : Int)
    (external_inputs : StackSub) (step_inputs : StackStepInputs) (padding : Option Tensor)
    (state0 : StackSub) : Except String (List Tensor) := do
  let inputs := step_inputs.inputs
  let (residual_inputs, _) ← StackStep.fpropLoop residual_start residual_stride padding
    (stackAdditional step_inputs) sub external_inputs.sub state0.sub 0 inputs
    [Tensor.concat inputs] []
  .ok residual_inputs

/-- Translated from `StackStep.PrepareExternalInputs`: delegates to each
sub-step in order, collecting the results in `packed.sub`. -/
def StackStep.PrepareExternalInputs (sub : List StackChild) (external_inputs : TVal) :
    StackSub :=
  ⟨sub.map fun c => c.PrepareExternalInputs external_inputs⟩

/-- Translated from `StackStep.ZeroState`: collects each sub-step's zero
state in `state.sub`; note the source passes the whole `external_inputs`
object (not a per-child entry) to every child. -/
def StackStep.ZeroState (sub : List StackChild) (external_inputs : TVal)
    (batch_size : Nat) : StackSub :=
  ⟨sub.map fun c => c.ZeroState external_inputs batch_size⟩

/-- Modelled from the spec: stack evaluation with the residual additive
term removed — each child's raw output is passed unmodified to the next
child (used as the reference side of the residual-disabled equivalence).
Returns the list of raw child outputs and the child states. -/
def StackStep.plainLoop (padding : Option Tensor) (additional : List Tensor) :
    List StackChild → List TVal → List TVal → List Tensor →
    Except String (List Tensor × List TVal)
  | [], _, _, _ => .ok ([], [])
  | _ :: _, [], _, _ => .error "IndexError: sub"
  | _ :: _, _ :: _, [], _ => .error "IndexError: sub"
  | c :: cs, ext :: exts, s0 :: states, inputs =>
    let res := c.FProp ext (inputs ++ additional) padding s0
    match StackStep.plainLoop padding additional cs exts states [res.1] with
    | .ok (outs, sts) => .ok (res.1 :: outs, res.2 :: sts)
    | .error msg => .error msg

/-- Modelled from the spec: the stack with residuals disabled (no additive
term); the raw output of the top child is returned. -/
def StackStep.FPropNoResidual (sub : List StackChild) (external_inputs : StackSub)
    (step_inputs : StackStepInputs) (padding : Option Tensor) (state0 : StackSub) :
    Except String (StackOut × StackSub) := do
  let (outs, st1) ← StackStep.plainLoop padding (stackAdditional step_inputs) sub
    external_inputs.sub state0.sub step_inputs.inputs
  match outs.getLast? with
  | some output => .ok (⟨output⟩, ⟨st1⟩)
  | none => .error "NameError: output"

/-! ### GraphStep

Translated from `GraphStep` in `step.py`. A graph sub-step is modelled as
the three step operations with its weights baked in (the source threads
`theta[seq.name]` to each child); its `FProp` receives the resolved
external value (`None` when the spec has no external signature), the
resolved `step_inputs` value, the padding and its own previous state. -/

/-- A graph sub-step: the three step operations of a child, weights baked
in. Its `FProp` external-inputs argument is `Option` because `GraphStep`
passes `None` for sub-steps without an external signature. -/
structure GraphChild where
  PrepareExternalInputs : TVal → TVal
  ZeroState : TVal → Nat → TVal
  FProp : Option TVal → TVal → Option Tensor → TVal → TVal × TVal

/-- The part of a sub-step's `params` the construction reads: its `name`
(possibly empty, in which case one is synthesized) and the child it
constructs. -/
structure SubParams where
  name : String
  step : GraphChild

/-- The `SubStep` namedtuple of `step.py`: (signature, external_signature
or None, params). Signatures appear here in parsed form. -/
structure SubStep where
  signature : GraphSignature
  external_signature : Option GraphSignature
  params : SubParams

/-- The `_Seq` namedtuple of `GraphStep`: resolved name, parsed signatures
and the constructed child. -/
structure GraphSeq where
  name : String
  signature : GraphSignature
  external_signature : Option GraphSignature
  step : GraphChild

/-- Two-or-more-digit decimal rendering of an index, as Python `'%02d'`. -/
def fmt02 (i : Nat) : String :=
  if i < 10 then "0" ++ toString i else toString i

/-- Lookup of a key in a string-keyed association list, failing with a
`KeyError` when absent (Python `d[k]`). -/
def lookupE (es : List (String × TVal)) (k : String) : Except String TVal :=
  match findKey es k with
  | some v => .ok v
  | none => .error ("KeyError: " ++ k)

/-- Translated from the external-signature checks of `GraphStep.__init__`:
when an external signature is present, asserts
`len(external_sig.inputs) == 1` and `not external_sig.outputs`. -/
def extSigCheck : Option GraphSignature → Except String Unit
  | none => .ok ()
  | some esig =>
    if esig.inputs.length = 1 then
      if esig.outputs.isEmpty then .ok ()
      else .error "AssertionError: external_sig.outputs"
    else .error "AssertionError: len(external_sig.inputs)"

/-- Translated from the constructor loop of `GraphStep.__init__`: for each
spec, asserts `len(sig.inputs) == 1` and `sig.outputs`, runs the
external-signature checks, synthesizes `'%s_%02d' % (sig.outputs[0], i)`
as the name when `params.name` is empty, and records the `_seq` entry. -/
def GraphStep.mkSeqs : Nat → List SubStep → Except String (List GraphSeq)
  | _, [] => .ok []
  | i, s :: rest =>
    if s.signature.inputs.length = 1 then
      if s.signature.outputs.isEmpty then .error "AssertionError: sig.outputs"
      else
        (extSigCheck s.external_signature).bind fun _ =>
          (GraphStep.mkSeqs (i + 1) rest).bind fun seqs =>
            .ok (⟨(if s.params.name = "" then s.signature.outputs.headD "" ++ "_" ++ fmt02 i
                else s.params.name),
              s.signature, s.external_signature, s.params.step⟩ :: seqs)
    else .error "AssertionError: len(sig.inputs)"

/-- A constructed `GraphStep`: its parsed `output_signature` and the
`_seq` list built by the constructor. -/
structure GraphStepModel where
  output_signature : GraphSignature
  seq : List GraphSeq

/-- Translated from `GraphStep.__init__`: runs the per-spec construction
loop (`GraphStep.mkSeqs`) and records the output signature. -/
def GraphStep.mk? (output_signature : GraphSignature) (sub : List SubStep) :
    Except String GraphStepModel := do
  let seqs ← GraphStep.mkSeqs 0 sub
  .ok ⟨output_signature, seqs⟩

/-- Translated from the loop body of `GraphStep.PrepareExternalInputs`:
the value recorded under a sub-step's name — when it has an external
signature, its input group is resolved against the registry
(`packed.inputs[0]`) and passed to the child's `PrepareExternalInputs`;
otherwise an empty `NestedMap`. -/
def GraphStep.prepEntry (gt : GraphTensors) (s : GraphSeq) : Except String TVal :=
  match s.external_signature with
  | some esig =>
    (esig.inputs.mapM (resolveGroup gt)).bind fun groups =>
      (headE groups).bind fun v => .ok (s.step.PrepareExternalInputs v)
  | none => .ok (TVal.tmap [])

/-- Translated from the loop of `GraphStep.PrepareExternalInputs`: records
each sub-step's prepared value under its name, in declaration order. -/
def GraphStep.prepLoop (gt : GraphTensors) :
    List GraphSeq → List (String × TVal) → Except String (List (String × TVal))
  | [], prepared => .ok prepared
  | s :: rest, prepared =>
    (GraphStep.prepEntry gt s).bind fun v =>
      GraphStep.prepLoop gt rest (setKey prepared s.name v)

/-- Translated from `GraphStep.PrepareExternalInputs`: a fresh registry
seeded with `external_inputs`, then the per-sub-step preparation loop. -/
def GraphStep.PrepareExternalInputs (g : GraphStepModel) (external_inputs : TVal) :
    Except String (List (String × TVal)) := do
  let gt ← GraphTensors.empty.StoreTensor "external_inputs" external_inputs
  GraphStep.prepLoop gt g.seq []

/-- Translated from `GraphStep.ZeroState`: collects each sub-step's
`ZeroState` of its prepared-inputs entry, keyed by sub-step name. -/
def GraphStep.zeroLoop (prepared_inputs : List (String × TVal)) (batch_size : Nat) :
    List GraphSeq → List (String × TVal) → Except String (List (String × TVal))
  | [], state0 => .ok state0
  | s :: rest, state0 =>
    match lookupE prepared_inputs s.name with
    | .error msg => .error msg
    | .ok prep =>
      GraphStep.zeroLoop prepared_inputs batch_size rest
        (setKey state0 s.name (s.step.ZeroState prep batch_size))

/-- Translated from `GraphStep.ZeroState`. -/
def GraphStep.ZeroState (g : GraphStepModel) (prepared_inputs : List (String × TVal))
    (batch_size : Nat) : Except String (List (String × TVal)) :=
  GraphStep.zeroLoop prepared_inputs batch_size g.seq []

/-- Translated from the external-value selection in `GraphStep.FProp`'s
loop: `external = None`, overwritten with `external_inputs[seq.name]` only
when the sub-step has an external signature. -/
def GraphStep.seqExternal (external_inputs : List (String × TVal)) (s : GraphSeq) :
    Except String (Option TVal) :=
  match s.external_signature with
  | some _ =>
    match lookupE external_inputs s.name with
    | .ok v => .ok (some v)
    | .error msg => .error msg
  | none => .ok none

/-- Translated from the loop of `GraphStep.FProp`: resolves the sub-step's
external value and its input group(s) against the registry, looks up its
previous state, invokes the child's `FProp`, stores the output under
`seq.signature.outputs[0]`, and records the returned state under the
sub-step's name. -/
def GraphStep.fpropLoop (external_inputs : List (String × TVal)) (padding : Option Tensor)
    (state0 : List (String × TVal)) :
    List GraphSeq → GraphTensors → List (String × TVal) →
    Except String (GraphTensors × List (String × TVal))
  | [], gt, state1 => .ok (gt, state1)
  | s :: rest, gt, state1 => do
    let external ← GraphStep.seqExternal external_inputs s
    let groups ← s.signature.inputs.mapM (resolveGroup gt)
    let input_args ← headE groups
    let st0 ← lookupE state0 s.name
    let res := s.step.FProp external input_args padding st0
    let outName ← headE s.signature.outputs
    let gt2 ← gt.StoreTensor outName res.1
    GraphStep.fpropLoop external_inputs padding state0 rest gt2 (setKey state1 s.name res.2)

/-- Translated from `GraphStep.FProp`: a fresh registry seeded with
`external_inputs` (the prepared map) and `step_inputs`, the sub-step loop,
then resolution of `output_signature`'s input group against the final
registry. -/
def GraphStep.FProp (g : GraphStepModel) (external_inputs : List (String × TVal))
    (step_inputs : TVal) (padding : Option Tensor) (state0 : List (String × TVal)) :
    Except String (TVal × List (String × TVal)) := do
  let gt ← GraphTensors.empty.StoreTensor "external_inputs" (TVal.tmap external_inputs)
  let gt2 ← gt.StoreTensor "step_inputs" step_inputs
  let (gt3, state1) ← GraphStep.fpropLoop external_inputs padding state0 g.seq gt2 []
  let groups ← g.output_signature.inputs.mapM (resolveGroup gt3)
  let output_tensors ← headE groups
  .ok (output_tensors, state1)

/-- The same graph with every sub-step's declared outputs truncated to the
first name (used to state that `FProp` consults only `outputs[0]`). -/
def GraphStep.truncateOutputs (g : GraphStepModel) : GraphStepModel :=
  ⟨g.output_signature,
    g.seq.map fun s =>
      ⟨s.name, ⟨s.signature.inputs, s.signature.outputs.take 1⟩, s.external_signature, s.step⟩⟩

/-! ### Helper lemmas -/

theorem findKey_setKey_self (es : List (String × TVal)) (k : String) (v : TVal) :
    findKey (setKey es k v) k = some v := by
  induction es with
  | nil => simp [setKey, findKey]
  | cons e rest ih =>
    obtain ⟨k0, v0⟩ := e
    by_cases h : k0 = k
    · simp [setKey, h, findKey]
    · simp [setKey, h, findKey, ih]

theorem findKey_setKey_ne (es : List (String × TVal)) (k k' : String) (v : TVal)
    (h : k' ≠ k) : findKey (setKey es k' v) k = findKey es k := by
  induction es with
  | nil => simp [setKey, findKey, h]
  | cons e rest ih =>
    obtain ⟨k0, v0⟩ := e
    by_cases h0 : k0 = k'
    · subst h0
      simp [setKey, findKey, h]
    · simp [setKey, h0, findKey, ih]

theorem setKey_of_not_mem (es : List (String × TVal)) (k : String) (v : TVal)
    (h : k ∉ es.map Prod.fst) : setKey es k v = es ++ [(k, v)] := by
  induction es with
  | nil => simp [setKey]
  | cons e rest ih =>
    obtain ⟨k0, v0⟩ := e
    simp only [List.map_cons, List.mem_cons] at h
    push_neg at h
    have hne : k0 ≠ k := fun hh => h.1 hh.symm
    simp [setKey, hne, ih h.2]

theorem headE_take_one {α : Type} (xs : List α) : headE (xs.take 1) = headE xs := by
  cases xs <;> rfl

@[simp] theorem except_bind_ok {ε α β : Type} (a : α) (f : α → Except ε β) :
    (Except.ok a : Except ε α).bind f = f a := rfl

@[simp] theorem except_bind_error {ε α β : Type} (e : ε) (f : α → Except ε β) :
    (Except.error e : Except ε α).bind f = Except.error e := rfl

@[simp] theorem except_bbind_ok {ε α β : Type} (a : α) (f : α → Except ε β) :
    ((Except.ok a : Except ε α) >>= f) = f a := rfl

@[simp] theorem except_bbind_error {ε α β : Type} (e : ε) (f : α → Except ε β) :
    ((Except.error e : Except ε α) >>= f) = (Except.error e : Except ε β) := rfl

/-- The per-spec conditions asserted by `GraphStep.__init__`: exactly one
input group and at least one output in the signature; exactly one input
group and no outputs in the external signature when present. -/
def extSigOk : Option GraphSignature → Prop
  | none => True
  | some esig => esig.inputs.length = 1 ∧ esig.outputs = []

def specArityOk (s : SubStep) : Prop :=
  s.signature.inputs.length = 1 ∧ s.signature.outputs ≠ [] ∧ extSigOk s.external_signature

theorem extSigCheck_ok_of_conds (ext : Option GraphSignature) (h : extSigOk ext) :
    extSigCheck ext = Except.ok () := by
  cases ext with
  | none => rfl
  | some esig =>
    obtain ⟨e1, e2⟩ := h
    simp [extSigCheck, e1, e2]

theorem conds_of_extSigCheck_ok (ext : Option GraphSignature) (u : Unit)
    (h : extSigCheck ext = Except.ok u) : extSigOk ext := by
  cases ext with
  | none => trivial
  | some esig =>
    rw [extSigCheck] at h
    by_cases he1 : esig.inputs.length = 1
    · rw [if_pos he1] at h
      cases heo : esig.outputs with
      | nil => exact ⟨he1, heo⟩
      | cons a l => rw [heo] at h; simp at h
    · rw [if_neg he1] at h; simp at h

theorem mkSeqs_ok_of_arity (subs : List SubStep) (i : Nat)
    (h : ∀ s ∈ subs, specArityOk s) :
    ∃ seqs, GraphStep.mkSeqs i subs = Except.ok seqs := by
  induction subs generalizing i with
  | nil => exact ⟨[], rfl⟩
  | cons s rest ih =>
    obtain ⟨h1, h2, h3⟩ := h s (List.mem_cons_self _ _)
    obtain ⟨seqs, hs⟩ := ih (i + 1) (fun s' hs' => h s' (List.mem_cons_of_mem _ hs'))
    obtain ⟨o, os, houts⟩ : ∃ o os, s.signature.outputs = o :: os := by
      cases hh : s.signature.outputs with
      | nil => exact absurd hh h2
      | cons o os => exact ⟨o, os, rfl⟩
    have hec : extSigCheck s.external_signature = Except.ok () :=
      extSigCheck_ok_of_conds _ h3
    rw [GraphStep.mkSeqs, if_pos h1, houts]
    simp only [List.isEmpty_cons, Bool.false_eq_true, if_false, hec, hs, except_bind_ok]
    exact ⟨_, rfl⟩

theorem arity_of_mkSeqs_ok (subs : List SubStep) (i : Nat) (seqs : List GraphSeq)
    (h : GraphStep.mkSeqs i subs = Except.ok seqs) :
    ∀ s ∈ subs, specArityOk s := by
  induction subs generalizing i seqs with
  | nil => intro s hs; cases hs
  | cons s rest ih =>
    intro s' hs'
    rw [GraphStep.mkSeqs] at h
    by_cases h1 : s.signature.inputs.length = 1
    · rw [if_pos h1] at h
      cases houts : s.signature.outputs with
      | nil => rw [houts] at h; simp at h
      | cons o os =>
        rw [houts] at h
        simp only [List.isEmpty_cons, Bool.false_eq_true, if_false] at h
        cases hec : extSigCheck s.external_signature with
        | error m => rw [hec] at h; simp at h
        | ok u =>
          rw [hec] at h
          simp only [except_bind_ok] at h
          cases hrest : GraphStep.mkSeqs (i + 1) rest with
          | error m => rw [hrest] at h; simp at h
          | ok seqs' =>
            rcases List.mem_cons.mp hs' with rfl | hmem
            · exact ⟨h1, by simp [houts], conds_of_extSigCheck_ok _ u hec⟩
            · exact ih (i + 1) seqs' hrest s' hmem
    · rw [if_neg h1] at h; simp at h

/-! ### Concrete instances used by counterexamples and witnesses -/

/-- A graph child that echoes its `step_inputs` as output and its previous
state as next state. -/
def gEcho : GraphChild :=
  ⟨fun _ => TVal.tmap [], fun _ _ => TVal.tmap [], fun _ si _ st => (si, st)⟩

/-- A stack child whose raw output is the constant tensor `base n` and
whose state passes through. -/
def cConst (n : Nat) : StackChild :=
  ⟨fun _ => TVal.tmap [], fun _ _ => TVal.tmap [], fun _ _ _ st => (Tensor.base n, st)⟩

/-- Two graph sub-step specs that both declare the output name `c`. -/
def dupOutSubSteps : List SubStep :=
  [⟨⟨[InputGroup.bare ⟨"step_inputs", []⟩], ["c"]⟩, none, ⟨"", gEcho⟩⟩,
   ⟨⟨[InputGroup.bare ⟨"step_inputs", []⟩], ["c"]⟩, none, ⟨"", gEcho⟩⟩]

/-- An output signature referencing the name `c`. -/
def outSigC : GraphSignature := ⟨[InputGroup.bare ⟨"c", []⟩], ["output"]⟩

/-! ### C1 -/

/-- C1 counterexample: a `GraphStep` configuration with two sub-step specs
declaring the same output name `c` constructs successfully (the claim says
construction fails); the duplicate is only detected later, inside `FProp`,
when the second sub-step's output is stored into the registry. -/
theorem c1_counterexample :
    (∃ g, GraphStep.mk? outSigC dupOutSubSteps = Except.ok g) ∧
    (GraphStep.mk? outSigC dupOutSubSteps).bind
        (fun g => GraphStep.FProp g [] (TVal.tensor (Tensor.base 7)) none
          [("c_00", TVal.tmap []), ("c_01", TVal.tmap [])]) =
      Except.error "duplicate tensor name: c" :=
  ⟨⟨_, rfl⟩, rfl⟩

/-- C1 (amended): `GraphStep.__init__` performs no cross-spec
output-uniqueness check — construction succeeds whenever every spec passes
the per-spec signature-arity assertions, duplicate output names included;
the collision is detected at call time, when `FProp` stores the second
output of that name into the tensor registry. -/
theorem c1_amended_no_construction_check :
    (∀ (output_signature : GraphSignature) (subs : List SubStep),
      (∀ s ∈ subs, specArityOk s) →
      ∃ g, GraphStep.mk? output_signature subs = Except.ok g) ∧
    (GraphStep.mk? outSigC dupOutSubSteps).bind
        (fun g => GraphStep.FProp g [] (TVal.tensor (Tensor.base 7)) none
          [("c_00", TVal.tmap []), ("c_01", TVal.tmap [])]) =
      Except.error "duplicate tensor name: c" := by
  constructor
  · intro output_signature subs h
    obtain ⟨seqs, hs⟩ := mkSeqs_ok_of_arity subs 0 h
    exact ⟨⟨output_signature, seqs⟩, by rw [GraphStep.mk?, hs]; rfl⟩
  · rfl

/-- C1 amended witness: the per-spec arity conditions hold for the
duplicate-output configuration, and construction indeed succeeds there. -/
theorem c1_amended_witness :
    (∀ s ∈ dupOutSubSteps, specArityOk s) ∧
    ∃ g, GraphStep.mk? outSigC dupOutSubSteps = Except.ok g := by
  have harity : ∀ s ∈ dupOutSubSteps, specArityOk s := by
    intro s hs
    rcases List.mem_cons.mp hs with rfl | hs2
    · exact ⟨rfl, by simp, trivial⟩
    · rcases List.mem_cons.mp hs2 with rfl | hs3
      · exact ⟨rfl, by simp, trivial⟩
      · cases hs3
  exact ⟨harity, c1_amended_no_construction_check.1 outSigC dupOutSubSteps harity⟩

/-! ### C2 -/

/-- C2 counterexample: `StackStep` with `residual_start = 1` and
`residual_stride = 3`: at child index 1 the lookback index
`i + 1 - residual_stride = -1` is negative, yet `FProp` does NOT fail the
assertion (the claim says it must); it returns successfully, with the
residual addend `base 0` taken from the wrapped-around position
(`residual_inputs[-1]`, the recorded output of child 0). -/
theorem c2_counterexample :
    StackStep.FProp [cConst 0, cConst 1] 1 3 ⟨[TVal.tmap [], TVal.tmap []]⟩
        ⟨[Tensor.base 9], none⟩ none ⟨[TVal.tmap [], TVal.tmap []]⟩ =
      Except.ok (⟨Tensor.add (Tensor.base 1) (Tensor.base 0)⟩,
        ⟨[TVal.tmap [], TVal.tmap []]⟩) := rfl

/-- C2 (amended): the source's assertion
`i + 1 - residual_stride < len(residual_inputs)` bounds the lookback index
only from above (it cannot fire for any positive stride); when the index
is negative the assertion passes and the residual addend is taken from a
wrapped-around position by Python negative indexing. Concretely, for any
two children with `residual_start = 1`, `residual_stride = 3`, `FProp`
succeeds and child 1's residual addend is child 0's recorded output. -/
theorem c2_amended_wraparound (c0 c1 : StackChild) (e0 e1 s0 s1 : TVal)
    (ins : List Tensor) (ctx : Option Tensor) (padding : Option Tensor) :
    StackStep.FProp [c0, c1] 1 3 ⟨[e0, e1]⟩ ⟨ins, ctx⟩ padding ⟨[s0, s1]⟩ =
      Except.ok
        (⟨Tensor.add
            (c1.FProp e1 ([(c0.FProp e0 (ins ++ stackAdditional ⟨ins, ctx⟩) padding s0).1] ++
              stackAdditional ⟨ins, ctx⟩) padding s1).1
            (c0.FProp e0 (ins ++ stackAdditional ⟨ins, ctx⟩) padding s0).1⟩,
         ⟨[(c0.FProp e0 (ins ++ stackAdditional ⟨ins, ctx⟩) padding s0).2,
           (c1.FProp e1 ([(c0.FProp e0 (ins ++ stackAdditional ⟨ins, ctx⟩) padding s0).1] ++
             stackAdditional ⟨ins, ctx⟩) padding s1).2]⟩) := rfl

/-! ### C3 -/

/-- One graph sub-step spec declaring two output names `c` and `d`. -/
def twoOutSubSteps : List SubStep :=
  [⟨⟨[InputGroup.bare ⟨"step_inputs", []⟩], ["c", "d"]⟩, none, ⟨"", gEcho⟩⟩]

/-- An output signature referencing the name `d`. -/
def outSigD : GraphSignature := ⟨[InputGroup.bare ⟨"d", []⟩], ["output"]⟩

/-- C3 counterexample: a sub-step declaring output names `c` and `d`
constructs fine, but after its `FProp` runs, its output is NOT resolvable
under the second declared name `d` (the claim says every declared name is
stored): resolving the output signature `d` fails with a lookup error. -/
theorem c3_counterexample :
    (∃ g, GraphStep.mk? outSigD twoOutSubSteps = Except.ok g) ∧
    (GraphStep.mk? outSigD twoOutSubSteps).bind
        (fun g => GraphStep.FProp g [] (TVal.tensor (Tensor.base 7)) none
          [("c_00", TVal.tmap [])]) =
      Except.error "KeyError: d" :=
  ⟨⟨_, rfl⟩, rfl⟩

theorem fpropLoop_truncate (external_inputs : List (String × TVal)) (padding : Option Tensor)
    (state0 : List (String × TVal)) (seqs : List GraphSeq) :
    ∀ (gt : GraphTensors) (state1 : List (String × TVal)),
      GraphStep.fpropLoop external_inputs padding state0
          (seqs.map fun s =>
            (⟨s.name, ⟨s.signature.inputs, s.signature.outputs.take 1⟩,
              s.external_signature, s.step⟩ : GraphSeq)) gt state1 =
        GraphStep.fpropLoop external_inputs padding state0 seqs gt state1 := by
  induction seqs with
  | nil => intro gt state1; rfl
  | cons s rest ih =>
    intro gt state1
    obtain ⟨name, ⟨gins, gouts⟩, extsig, step⟩ := s
    simp only [List.map_cons, GraphStep.fpropLoop]
    cases hext : GraphStep.seqExternal external_inputs ⟨name, ⟨gins, gouts⟩, extsig, step⟩ with
    | error m =>
      have hext2 : GraphStep.seqExternal external_inputs
          ⟨name, ⟨gins, gouts.take 1⟩, extsig, step⟩ = Except.error m := hext
      rw [hext2]
      rfl
    | ok ext =>
      have hext2 : GraphStep.seqExternal external_inputs
          ⟨name, ⟨gins, gouts.take 1⟩, extsig, step⟩ = Except.ok ext := hext
      rw [hext2]
      simp only [except_bbind_ok]
      cases hgr : gins.mapM (resolveGroup gt) with
      | error m => rfl
      | ok groups =>
        simp only [except_bbind_ok]
        cases hhd : headE groups with
        | error m => rfl
        | ok input_args =>
          simp only [except_bbind_ok]
          cases hst : lookupE state0 name with
          | error m => rfl
          | ok st0 =>
            simp only [except_bbind_ok, headE_take_one]
            cases hon : headE gouts with
            | error m => rfl
            | ok outName =>
              simp only [except_bbind_ok]
              cases hstore : gt.StoreTensor outName
                  (step.FProp ext input_args padding st0).1 with
              | error m => rfl
              | ok gt2 =>
                simp only [except_bbind_ok]
                exact ih gt2 _

/-- C3 (amended): after a sub-step's `FProp` returns, `GraphStep.FProp`
stores the child's output only under the FIRST declared output name
(`seq.signature.outputs[0]`); the remaining declared names are ignored —
the step behaves identically when every sub-step's output list is
truncated to its first name — so only the first name is resolvable by
later sub-steps and by the output signature. -/
theorem c3_amended_first_output_only (g : GraphStepModel)
    (external_inputs : List (String × TVal)) (step_inputs : TVal)
    (padding : Option Tensor) (state0 : List (String × TVal)) :
    GraphStep.FProp (GraphStep.truncateOutputs g) external_inputs step_inputs padding state0 =
      GraphStep.FProp g external_inputs step_inputs padding state0 := by
  rw [GraphStep.FProp, GraphStep.FProp, GraphStep.truncateOutputs]
  cases h1 : GraphTensors.empty.StoreTensor "external_inputs" (TVal.tmap external_inputs) with
  | error m => rfl
  | ok gt =>
    simp only [except_bbind_ok]
    cases h2 : gt.StoreTensor "step_inputs" step_inputs with
    | error m => rfl
    | ok gt2 =>
      simp only [except_bbind_ok]
      rw [fpropLoop_truncate]

/-! ### C8 -/

/-- C8: `StatelessLayerStep.PrepareExternalInputs` and
`StatelessLayerStep.ZeroState` return an empty `NestedMap` regardless of
their arguments, and the state component of the pair returned by
`StatelessLayerStep.FProp` is always an empty `NestedMap` regardless of
`step_inputs`, `padding` and `state0`. -/
theorem c8_stateless_empty (layer : Layer) (external_inputs : TVal) (batch_size : Nat)
    (eo : Option TVal) (step_inputs : SLInputs) (padding : Option Tensor) (state0 : TVal) :
    StatelessLayerStep.PrepareExternalInputs layer external_inputs = TVal.tmap [] ∧
    StatelessLayerStep.ZeroState layer external_inputs batch_size = TVal.tmap [] ∧
    (StatelessLayerStep.FProp layer eo step_inputs padding state0).2 = TVal.tmap [] :=
  ⟨rfl, rfl, rfl⟩

/-! ### C9 -/

/-- C9: constructing a `GraphStep` fails when any sub-step spec's
signature does not have exactly one input group, or declares no output
names, or when a present external signature does not have exactly one
input group or declares any outputs — the arity assertions of
`GraphStep.__init__` fire at construction time. -/
theorem c9_construction_arity (output_signature : GraphSignature) (subs : List SubStep)
    (h : ∃ s ∈ subs, ¬ specArityOk s) :
    ∃ msg, GraphStep.mk? output_signature subs = Except.error msg := by
  cases hmk : GraphStep.mk? output_signature subs with
  | error msg => exact ⟨msg, rfl⟩
  | ok g =>
    obtain ⟨s, hmem, hbad⟩ := h
    have hms : ∃ seqs, GraphStep.mkSeqs 0 subs = Except.ok seqs := by
      rw [GraphStep.mk?] at hmk
      cases hseqs : GraphStep.mkSeqs 0 subs with
      | ok seqs => exact ⟨seqs, rfl⟩
      | error m => rw [hseqs] at hmk; simp at hmk
    obtain ⟨seqs, hseqs⟩ := hms
    exact absurd (arity_of_mkSeqs_ok subs 0 seqs hseqs s hmem) hbad

/-- A spec with zero input groups in its signature. -/
def badAritySub : SubStep := ⟨⟨[], ["c"]⟩, none, ⟨"", gEcho⟩⟩

/-- C9 witness: a configuration containing a spec whose signature has zero
input groups is rejected at construction. -/
theorem c9_witness :
    (∃ s ∈ [badAritySub], ¬ specArityOk s) ∧
    ∃ msg, GraphStep.mk? outSigC [badAritySub] = Except.error msg := by
  have hbad : ∃ s ∈ [badAritySub], ¬ specArityOk s :=
    ⟨badAritySub, by simp, by simp [specArityOk, badAritySub]⟩
  exact ⟨hbad, c9_construction_arity outSigC [badAritySub] hbad⟩

/-! ### C5 -/

/-- A graph child computing its output as `f` of its `step_inputs` and its
next state as `fs` of its previous state. -/
def gFun (f fs : TVal → TVal) : GraphChild :=
  ⟨fun _ => TVal.tmap [], fun _ _ => TVal.tmap [], fun _ si _ st => (f si, fs st)⟩

/-- The two sub-step specs of the end-to-end scenario: step A with the
parsed form of `(inputs=[step_inputs.inputs])->layer_0` and step B with
the parsed form of `(inputs=[layer_0])->layer_1` (the spec's signature
grammar). -/
def c5SubSteps (fA fB sA sB : TVal → TVal) : List SubStep :=
  [⟨⟨[InputGroup.named "inputs" [⟨"step_inputs", [PathStep.field "inputs"]⟩]], ["layer_0"]⟩,
      none, ⟨"", gFun fA sA⟩⟩,
   ⟨⟨[InputGroup.named "inputs" [⟨"layer_0", []⟩]], ["layer_1"]⟩,
      none, ⟨"", gFun fB sB⟩⟩]

/-- The parsed form of the output signature `(inputs=[layer_1])->output`. -/
def c5OutSig : GraphSignature := ⟨[InputGroup.named "inputs" [⟨"layer_1", []⟩]], ["output"]⟩

/-- C5: in the two-sub-step scenario, for arbitrary child transforms,
`FProp` invokes A first on the resolved `step_inputs.inputs` group, stores
its output under `layer_0`, invokes B on the resolved `layer_0` group
(i.e. on A's output), stores B's output under `layer_1`, and the overall
output is `layer_1`'s value packed into the output signature's `inputs`
group; the returned state is keyed by the two synthesized sub-step names
in declaration order. Declaration order is execution order: B's input is
built from A's already-stored output. -/
theorem c5_graph_dataflow (fA fB sA sB : TVal → TVal) (t : Tensor)
    (ein : List (String × TVal)) (padding : Option Tensor) (z0 z1 : TVal) :
    (GraphStep.mk? c5OutSig (c5SubSteps fA fB sA sB)).bind
        (fun g => GraphStep.FProp g ein (TVal.tmap [("inputs", TVal.tlist [TVal.tensor t])])
          padding [("layer_0_00", z0), ("layer_1_01", z1)]) =
      Except.ok
        (TVal.tmap [("inputs", TVal.tlist
          [fB (TVal.tmap [("inputs", TVal.tlist
            [fA (TVal.tmap [("inputs", TVal.tlist [TVal.tlist [TVal.tensor t]])])])])])],
         [("layer_0_00", sA z0), ("layer_1_01", sB z1)]) := rfl

/-! ### C10 -/

theorem prepEntry_none (gt : GraphTensors) (s : GraphSeq)
    (h : s.external_signature = none) :
    GraphStep.prepEntry gt s = Except.ok (TVal.tmap []) := by
  rw [GraphStep.prepEntry, h]

theorem prepLoop_findKey_of_not_mem (k : String) (seqs : List GraphSeq) :
    ∀ (gt : GraphTensors) (acc m : List (String × TVal)),
      GraphStep.prepLoop gt seqs acc = Except.ok m →
      (∀ s ∈ seqs, s.name ≠ k) →
      findKey m k = findKey acc k := by
  induction seqs with
  | nil => intro gt acc m h hk; cases h; rfl
  | cons s rest ih =>
    intro gt acc m h hk
    rw [GraphStep.prepLoop] at h
    cases hpe : GraphStep.prepEntry gt s with
    | error msg => rw [hpe] at h; simp at h
    | ok v =>
      rw [hpe] at h
      simp only [except_bind_ok] at h
      rw [ih _ _ _ h (fun s' hs' => hk s' (List.mem_cons_of_mem _ hs'))]
      exact findKey_setKey_ne _ _ _ _ (hk s (List.mem_cons_self _ _))

theorem prepLoop_entry_of_none (seqs : List GraphSeq) :
    ∀ (gt : GraphTensors) (acc m : List (String × TVal)),
      GraphStep.prepLoop gt seqs acc = Except.ok m →
      (seqs.map GraphSeq.name).Nodup →
      ∀ s ∈ seqs, s.external_signature = none →
        findKey m s.name = some (TVal.tmap []) := by
  induction seqs with
  | nil => intro gt acc m h hnod s hs; cases hs
  | cons s rest ih =>
    intro gt acc m h hnod s' hs' hnone
    rw [GraphStep.prepLoop] at h
    cases hpe : GraphStep.prepEntry gt s with
    | error msg => rw [hpe] at h; simp at h
    | ok v =>
      rw [hpe] at h
      simp only [except_bind_ok] at h
      rcases List.mem_cons.mp hs' with rfl | hmem
      · have hv : v = TVal.tmap [] := by
          have h2 := prepEntry_none gt s' hnone
          rw [hpe] at h2
          exact (Except.ok.inj h2)
        subst hv
        have hnames : ∀ t ∈ rest, t.name ≠ s'.name := by
          intro t ht he
          exact (List.nodup_cons.mp hnod).1 (he ▸ List.mem_map_of_mem GraphSeq.name ht)
        rw [prepLoop_findKey_of_not_mem s'.name rest _ _ _ h hnames]
        exact findKey_setKey_self _ _ _
      · exact ih _ _ _ h (List.nodup_cons.mp hnod).2 s' hmem hnone

/-- A graph child whose output records whether the `external_inputs`
argument it received was `None` (`base 0`) or an actual value (`base 1`). -/
def probeChild : GraphChild :=
  ⟨fun _ => TVal.tmap [], fun _ _ => TVal.tmap [],
   fun ext _ _ st =>
     (match ext with
      | none => TVal.tensor (Tensor.base 0)
      | some _ => TVal.tensor (Tensor.base 1), st)⟩

/-- One sub-step without an external signature, wrapping the probe. -/
def probeSubSteps : List SubStep :=
  [⟨⟨[InputGroup.bare ⟨"step_inputs", []⟩], ["probe_out"]⟩, none, ⟨"", probeChild⟩⟩]

/-- Output signature referencing the probe's output. -/
def probeOutSig : GraphSignature := ⟨[InputGroup.bare ⟨"probe_out", []⟩], ["out"]⟩

/-- C10: for a sub-step declared without an external signature,
`PrepareExternalInputs` records an empty `NestedMap` under the sub-step's
name, yet the external value `FProp` computes for that sub-step
(`GraphStep.seqExternal`, the factored external-selection of the `FProp`
loop) is `none` — not the prepared empty map; concretely, a probe child
that reports whether its external argument was `None` observes `None`
through a full `FProp` call even though the prepared map holds an empty
`NestedMap` under its name. -/
theorem c10_no_external_sig (g : GraphStepModel) (external_inputs : TVal)
    (m : List (String × TVal)) (s : GraphSeq)
    (hprep : GraphStep.PrepareExternalInputs g external_inputs = Except.ok m)
    (hnod : (g.seq.map GraphSeq.name).Nodup)
    (hmem : s ∈ g.seq) (hnone : s.external_signature = none) :
    findKey m s.name = some (TVal.tmap []) ∧
    (∀ prepared : List (String × TVal),
      GraphStep.seqExternal prepared s = Except.ok none) ∧
    (GraphStep.mk? probeOutSig probeSubSteps).bind
        (fun gp => GraphStep.FProp gp [("probe_out_00", TVal.tmap [])]
          (TVal.tensor (Tensor.base 5)) none [("probe_out_00", TVal.tmap [])]) =
      Except.ok (TVal.tensor (Tensor.base 0), [("probe_out_00", TVal.tmap [])]) := by
  refine ⟨?_, ?_, rfl⟩
  · rw [GraphStep.PrepareExternalInputs] at hprep
    have hst : GraphTensors.empty.StoreTensor "external_inputs" external_inputs =
        Except.ok ⟨[("external_inputs", external_inputs)]⟩ := rfl
    rw [hst] at hprep
    simp only [except_bbind_ok] at hprep
    exact prepLoop_entry_of_none g.seq _ [] m hprep hnod s hmem hnone
  · intro prepared
    rw [GraphStep.seqExternal, hnone]

/-- The constructed probe graph. -/
def probeModel : GraphStepModel :=
  ⟨probeOutSig,
   [⟨"probe_out_00", ⟨[InputGroup.bare ⟨"step_inputs", []⟩], ["probe_out"]⟩, none, probeChild⟩]⟩

/-- C10 witness: the theorem applied to the concrete probe graph. -/
theorem c10_witness :
    GraphStep.PrepareExternalInputs probeModel (TVal.tmap []) =
        Except.ok [("probe_out_00", TVal.tmap [])] ∧
    (probeModel.seq.map GraphSeq.name).Nodup ∧
    findKey [("probe_out_00", TVal.tmap [])] "probe_out_00" = some (TVal.tmap []) := by
  refine ⟨rfl, by simp [probeModel], ?_⟩
  have h := c10_no_external_sig probeModel (TVal.tmap [])
    [("probe_out_00", TVal.tmap [])]
    ⟨"probe_out_00", ⟨[InputGroup.bare ⟨"step_inputs", []⟩], ["probe_out"]⟩, none, probeChild⟩
    rfl (by simp [probeModel]) (by simp [probeModel]) rfl
  exact h.1

/-! ### C7 -/

theorem stack_loop_plain (residual_start residual_stride : Int) (padding : Option Tensor)
    (additional : List Tensor) (hstart : residual_start < 0) (cs : List StackChild) :
    ∀ (exts sts : List TVal) (i : Nat) (inputs riAcc : List Tensor) (stAcc : List TVal),
      StackStep.fpropLoop residual_start residual_stride padding additional cs exts sts i
          inputs riAcc stAcc =
        (StackStep.plainLoop padding additional cs exts sts inputs).map
          (fun p => (riAcc ++ p.1, stAcc ++ p.2)) := by
  induction cs with
  | nil =>
    intro exts sts i inputs riAcc stAcc
    simp [StackStep.fpropLoop, StackStep.plainLoop, Except.map]
  | cons c rest ih =>
    intro exts sts i inputs riAcc stAcc
    cases exts with
    | nil => simp [StackStep.fpropLoop, StackStep.plainLoop, Except.map]
    | cons e exts2 =>
      cases sts with
      | nil => simp [StackStep.fpropLoop, StackStep.plainLoop, Except.map]
      | cons s0 sts2 =>
        have hcond : ¬ (residual_start ≤ (i : Int) ∧ 0 ≤ residual_start) :=
          fun hc => absurd hc.2 (by omega)
        rw [StackStep.fpropLoop, StackStep.plainLoop]
        rw [show StackStep.residualOutput residual_start residual_stride i
            ((fun riAcc => riAcc) riAcc) (c.FProp e (inputs ++ additional) padding s0).1 =
            Except.ok (c.FProp e (inputs ++ additional) padding s0).1 from
          by rw [StackStep.residualOutput, if_neg hcond]]
        simp only [except_bind_ok]
        rw [ih exts2 sts2 (i + 1) [(c.FProp e (inputs ++ additional) padding s0).1]
          (riAcc ++ [(c.FProp e (inputs ++ additional) padding s0).1])
          (stAcc ++ [(c.FProp e (inputs ++ additional) padding s0).2])]
        cases hpl : StackStep.plainLoop padding additional rest exts2 sts2
            [(c.FProp e (inputs ++ additional) padding s0).1] with
        | error m => simp [Except.map]
        | ok p => simp [Except.map]

theorem plainLoop_cons_shape (padding : Option Tensor) (additional : List Tensor)
    (c : StackChild) (cs : List StackChild) (exts sts : List TVal) (inputs : List Tensor)
    (outs : List Tensor) (sts' : List TVal)
    (h : StackStep.plainLoop padding additional (c :: cs) exts sts inputs =
      Except.ok (outs, sts')) :
    ∃ o os, outs = o :: os := by
  cases exts with
  | nil => rw [StackStep.plainLoop] at h; simp at h
  | cons e exts2 =>
    cases sts with
    | nil => rw [StackStep.plainLoop] at h; simp at h
    | cons s0 sts2 =>
      rw [StackStep.plainLoop] at h
      cases hpl : StackStep.plainLoop padding additional cs exts2 sts2
          [(c.FProp e (inputs ++ additional) padding s0).1] with
      | error m => rw [hpl] at h; simp at h
      | ok p =>
        rw [hpl] at h
        obtain ⟨os, ss⟩ := p
        exact ⟨_, os, ((Prod.mk.injEq _ _ _ _).mp (Except.ok.inj h)).1.symm⟩

/-- C7: with `residual_start = -1` (residuals disabled), `StackStep.FProp`
coincides exactly — same outputs, same states, same error behaviour — with
the residual-free stack evaluation `StackStep.FPropNoResidual` in which
each child's raw output is passed unmodified to the next child and the top
child's raw output is returned, for every stack configuration and input. -/
theorem c7_residual_disabled (sub : List StackChild) (residual_stride : Int)
    (external_inputs : StackSub) (step_inputs : StackStepInputs) (padding : Option Tensor)
    (state0 : StackSub) :
    StackStep.FProp sub (-1) residual_stride external_inputs step_inputs padding state0 =
      StackStep.FPropNoResidual sub external_inputs step_inputs padding state0 := by
  rw [StackStep.FProp, StackStep.FPropNoResidual]
  rw [stack_loop_plain (-1) residual_stride padding (stackAdditional step_inputs)
    (by omega) sub external_inputs.sub state0.sub 0 step_inputs.inputs
    [Tensor.concat step_inputs.inputs] []]
  cases hpl : StackStep.plainLoop padding (stackAdditional step_inputs) sub
      external_inputs.sub state0.sub step_inputs.inputs with
  | error m => rfl
  | ok p =>
    obtain ⟨outs, sts'⟩ := p
    simp only [Except.map, except_bbind_ok, List.nil_append]
    cases sub with
    | nil =>
      have houts : outs = [] := by
        rw [StackStep.plainLoop] at hpl
        exact (((Prod.mk.injEq _ _ _ _).mp (Except.ok.inj hpl)).1).symm
      subst houts
      rfl
    | cons c rest =>
      obtain ⟨o, os, houts⟩ := plainLoop_cons_shape padding _ c rest _ _ _ _ _ hpl
      subst houts
      rw [List.getLast?_append_of_ne_nil _ (by simp)]

/-! ### C6 -/

theorem getD_append_left {α : Type} (l l2 : List α) (n : Nat) (d : α) (h : n < l.length) :
    (l ++ l2).getD n d = l.getD n d := by
  induction l generalizing n with
  | nil => cases h
  | cons a t ih =>
    cases n with
    | zero => rfl
    | succ n => exact ih n (Nat.lt_of_succ_lt_succ h)

theorem getD_append_at {α : Type} (l : List α) (x d : α) :
    (l ++ [x]).getD l.length d = x := by
  induction l with
  | nil => rfl
  | cons a t ih => exact ih

theorem residualOutput_of_not_cond (residual_start residual_stride : Int) (i : Nat)
    (residual_inputs : List Tensor) (raw : Tensor)
    (h : ¬ (residual_start ≤ (i : Int) ∧ 0 ≤ residual_start)) :
    StackStep.residualOutput residual_start residual_stride i residual_inputs raw =
      Except.ok raw := by
  rw [StackStep.residualOutput, if_neg h]

theorem residualOutput_of_cond_nonneg (residual_start residual_stride : Int) (i : Nat)
    (residual_inputs : List Tensor) (raw : Tensor)
    (h1 : residual_start ≤ (i : Int)) (h2 : 0 ≤ residual_start)
    (h3 : 0 ≤ (i : Int) + 1 - residual_stride)
    (h4 : (i : Int) + 1 - residual_stride < (residual_inputs.length : Int)) :
    StackStep.residualOutput residual_start residual_stride i residual_inputs raw =
      Except.ok (Tensor.add raw
        (residual_inputs.getD ((i : Int) + 1 - residual_stride).toNat default)) := by
  rw [StackStep.residualOutput, if_pos ⟨h1, h2⟩, if_pos h4, pyGet, if_pos h3]
  have hidx : ((i : Int) + 1 - residual_stride).toNat < residual_inputs.length := by omega
  rw [show residual_inputs.get? (((i : Int) + 1 - residual_stride).toNat) =
      some (residual_inputs.getD (((i : Int) + 1 - residual_stride).toNat) default) from ?_]
  · rw [List.getD_eq_getElem _ _ hidx, List.get?_eq_getElem?]
    exact List.getElem?_eq_getElem hidx

theorem stack_loop_spec (residual_start residual_stride : Int) (padding : Option Tensor)
    (additional : List Tensor) (cs : List StackChild) :
    ∀ (exts sts : List TVal) (k : Nat) (inputs riAcc : List Tensor) (stAcc : List TVal)
      (ri : List Tensor) (st1 : List TVal),
      StackStep.fpropLoop residual_start residual_stride padding additional cs exts sts k
          inputs riAcc stAcc = Except.ok (ri, st1) →
      riAcc.length = k + 1 →
      (∀ m, m < k + 1 → ri.getD m default = riAcc.getD m default) ∧
      ri.length = k + 1 + cs.length ∧
      (∀ j, (hj : j < cs.length) →
        ∃ e s0, exts.get? j = some e ∧ sts.get? j = some s0 ∧
          ((¬ (residual_start ≤ ((k + j : Nat) : Int) ∧ 0 ≤ residual_start)) →
            ri.getD (k + j + 1) default =
              ((cs.get ⟨j, hj⟩).FProp e
                ((if j = 0 then inputs else [ri.getD (k + j) default]) ++ additional)
                padding s0).1) ∧
          ((residual_start ≤ ((k + j : Nat) : Int) ∧ 0 ≤ residual_start ∧
              0 ≤ ((k + j : Nat) : Int) + 1 - residual_stride) →
            ri.getD (k + j + 1) default =
              Tensor.add
                (((cs.get ⟨j, hj⟩).FProp e
                  ((if j = 0 then inputs else [ri.getD (k + j) default]) ++ additional)
                  padding s0).1)
                (ri.getD (((k + j : Nat) : Int) + 1 - residual_stride).toNat default))) := by
  induction cs with
  | nil =>
    intro exts sts k inputs riAcc stAcc ri st1 h hlen
    rw [StackStep.fpropLoop] at h
    cases h
    refine ⟨fun m hm => rfl, by simpa using hlen, fun j hj => absurd hj (Nat.not_lt_zero j)⟩
  | cons c rest ih =>
    intro exts sts k inputs riAcc stAcc ri st1 h hlen
    cases exts with
    | nil => rw [StackStep.fpropLoop] at h; simp at h
    | cons e exts2 =>
      cases sts with
      | nil => rw [StackStep.fpropLoop] at h; simp at h
      | cons s0 sts2 =>
        rw [StackStep.fpropLoop] at h
        cases hro : StackStep.residualOutput residual_start residual_stride k riAcc
            (c.FProp e (inputs ++ additional) padding s0).1 with
        | error m => rw [hro] at h; simp at h
        | ok output =>
          rw [hro] at h
          simp only [except_bind_ok] at h
          have hlen2 : (riAcc ++ [output]).length = (k + 1) + 1 := by simp [hlen]
          obtain ⟨hpref, hlen3, hjs⟩ := ih exts2 sts2 (k + 1) [output] (riAcc ++ [output])
            (stAcc ++ [(c.FProp e (inputs ++ additional) padding s0).2]) ri st1 h hlen2
          have hout : ri.getD (k + 1) default = output := by
            rw [hpref (k + 1) (by omega), ← hlen]
            exact getD_append_at riAcc output default
          have hprefOld : ∀ m, m < k + 1 → ri.getD m default = riAcc.getD m default := by
            intro m hm
            rw [hpref m (by omega)]
            exact getD_append_left riAcc [output] m default (by omega)
          refine ⟨hprefOld, by rw [hlen3]; simp; omega, ?_⟩
          intro j hj
          cases j with
          | zero =>
            refine ⟨e, s0, rfl, rfl, ?_, ?_⟩
            · intro hnc
              simp only [Nat.add_zero] at hnc ⊢
              rw [residualOutput_of_not_cond _ _ _ _ _ hnc] at hro
              have := Except.ok.inj hro
              rw [hout, ← this]
              rfl
            · intro hc
              simp only [Nat.add_zero] at hc ⊢
              obtain ⟨hc1, hc2, hc3⟩ := hc
              by_cases hass : ((k : Int) + 1 - residual_stride < (riAcc.length : Int))
              · rw [residualOutput_of_cond_nonneg _ _ _ _ _ hc1 hc2 hc3 hass] at hro
                have hov := Except.ok.inj hro
                have hidx : ((k : Int) + 1 - residual_stride).toNat < k + 1 := by omega
                rw [hout, ← hov, hprefOld _ hidx]
                rfl
              · rw [StackStep.residualOutput, if_pos ⟨hc1, hc2⟩, if_neg hass] at hro
                simp at hro
          | succ j2 =>
            have hj2 : j2 < rest.length := Nat.lt_of_succ_lt_succ hj
            obtain ⟨e2, s02, he2, hs2, hno, hyes⟩ := hjs j2 hj2
            have heq : k + (j2 + 1) = k + 1 + j2 := by omega
            have hinp : (if j2 = 0 then [output] else [ri.getD (k + 1 + j2) default]) =
                [ri.getD (k + 1 + j2) default] := by
              cases j2 with
              | zero => rw [if_pos rfl, Nat.add_zero, hout]
              | succ n => rfl
            rw [hinp] at hno hyes
            refine ⟨e2, s02, he2, hs2, ?_, ?_⟩
            · intro hnc
              rw [show ((k + (j2 + 1) : Nat) : Int) = ((k + 1 + j2 : Nat) : Int) from by omega]
                at hnc
              have := hno hnc
              simp only [heq]
              simpa using this
            · intro hc
              rw [show ((k + (j2 + 1) : Nat) : Int) = ((k + 1 + j2 : Nat) : Int) from by omega]
                at hc
              have := hyes hc
              simp only [heq]
              simpa using this

/-- C6: for a stack with `residual_start ≥ 0`, the recorded-outputs list
built by `StackStep.FProp` (`StackStep.recordedOutputs`) satisfies the
residual formula: entry 0 is the concatenation of the stack's input
tensors, and for every child index `j ≥ residual_start` whose lookback
index `j + 1 - residual_stride` is in range, the recorded output of child
`j` (entry `j + 1`) equals the child's raw `FProp` output on the chained
inputs plus the recorded output at lookback index `j + 1 - residual_stride`
(which is the concatenated stack input when that index is 0, covering the
`residual_start = 0, residual_stride = 1` instance `output[0] =
raw_output[0] + concatenated_stack_input`, `output[j] = raw_output[j] +
output[j-1]`). -/
theorem c6_stack_residual_formula (sub : List StackChild)
    (residual_start residual_stride : Int) (external_inputs : StackSub)
    (step_inputs : StackStepInputs) (padding : Option Tensor) (state0 : StackSub)
    (ri : List Tensor)
    (hok : StackStep.recordedOutputs sub residual_start residual_stride external_inputs
      step_inputs padding state0 = Except.ok ri)
    (hstart : 0 ≤ residual_start) :
    ri.getD 0 default = Tensor.concat step_inputs.inputs ∧
    ri.length = 1 + sub.length ∧
    ∀ j, (hj : j < sub.length) → residual_start ≤ (j : Int) →
      0 ≤ (j : Int) + 1 - residual_stride →
      ∃ e s0, external_inputs.sub.get? j = some e ∧ state0.sub.get? j = some s0 ∧
        ri.getD (j + 1) default =
          Tensor.add
            ((sub.get ⟨j, hj⟩).FProp e
              ((if j = 0 then step_inputs.inputs else [ri.getD j default]) ++
                stackAdditional step_inputs) padding s0).1
            (ri.getD ((j : Int) + 1 - residual_stride).toNat default) := by
  rw [StackStep.recordedOutputs] at hok
  cases hloop : StackStep.fpropLoop residual_start residual_stride padding
      (stackAdditional step_inputs) sub external_inputs.sub state0.sub 0 step_inputs.inputs
      [Tensor.concat step_inputs.inputs] [] with
  | error m => rw [hloop] at hok; simp at hok
  | ok p =>
    rw [hloop] at hok
    obtain ⟨ri0, stR⟩ := p
    simp only [except_bbind_ok] at hok
    have hri : ri0 = ri := Except.ok.inj hok
    subst hri
    obtain ⟨hpref, hlen, hjs⟩ := stack_loop_spec residual_start residual_stride padding
      (stackAdditional step_inputs) sub external_inputs.sub state0.sub 0 step_inputs.inputs
      [Tensor.concat step_inputs.inputs] [] ri0 stR hloop (by simp)
    refine ⟨?_, ?_, ?_⟩
    · rw [hpref 0 (by omega)]; rfl
    · omega
    · intro j hj hs1 hs2
      obtain ⟨e, s0, he, hs, _, hyes⟩ := hjs j hj
      have h0j : 0 + j = j := Nat.zero_add j
      rw [h0j] at hyes
      exact ⟨e, s0, he, hs, hyes ⟨hs1, hstart, hs2⟩⟩

/-- The recorded-outputs list of the two-child witness stack. -/
def c6ri : List Tensor :=
  [Tensor.concat [Tensor.base 9],
   Tensor.add (Tensor.base 0) (Tensor.concat [Tensor.base 9]),
   Tensor.add (Tensor.base 1) (Tensor.add (Tensor.base 0) (Tensor.concat [Tensor.base 9]))]

/-- C6 witness: the theorem applied to a two-child stack with
`residual_start = 0`, `residual_stride = 1`. -/
theorem c6_witness :
    StackStep.recordedOutputs [cConst 0, cConst 1] 0 1 ⟨[TVal.tmap [], TVal.tmap []]⟩
        ⟨[Tensor.base 9], none⟩ none ⟨[TVal.tmap [], TVal.tmap []]⟩ = Except.ok c6ri ∧
    (0 : Int) ≤ 0 ∧
    (c6ri.getD 0 default = Tensor.concat [Tensor.base 9] ∧
     c6ri.length = 1 + 2 ∧
     ∀ j : Nat, (hj : j < 2) → (0 : Int) ≤ (j : Int) → 0 ≤ (j : Int) + 1 - 1 →
       ∃ e s0, ([TVal.tmap [], TVal.tmap []] : List TVal).get? j = some e ∧
         ([TVal.tmap [], TVal.tmap []] : List TVal).get? j = some s0 ∧
         c6ri.getD (j + 1) default =
           Tensor.add
             ((([cConst 0, cConst 1] : List StackChild).get ⟨j, hj⟩).FProp e
               ((if j = 0 then [Tensor.base 9] else [c6ri.getD j default]) ++
                 stackAdditional ⟨[Tensor.base 9], none⟩) none s0).1
             (c6ri.getD ((j : Int) + 1 - 1).toNat default)) :=
  ⟨rfl, by decide,
    c6_stack_residual_formula [cConst 0, cConst 1] 0 1 ⟨[TVal.tmap [], TVal.tmap []]⟩
      ⟨[Tensor.base 9], none⟩ none ⟨[TVal.tmap [], TVal.tmap []]⟩ c6ri rfl (by decide)⟩

/-! ### C4 -/

theorem stack_loop_state_shape (residual_start residual_stride : Int)
    (padding : Option Tensor) (additional : List Tensor) (cs : List StackChild)
    (hpres : ∀ c ∈ cs, ∀ e ins p s, ((c.FProp e ins p s).2).shape = s.shape) :
    ∀ (exts sts : List TVal) (k : Nat) (inputs riAcc : List Tensor) (stAcc : List TVal)
      (ri : List Tensor) (st1 : List TVal),
      StackStep.fpropLoop residual_start residual_stride padding additional cs exts sts k
          inputs riAcc stAcc = Except.ok (ri, st1) →
      st1.length = stAcc.length + cs.length ∧
      st1.map TVal.shape = stAcc.map TVal.shape ++ (sts.take cs.length).map TVal.shape := by
  induction cs with
  | nil =>
    intro exts sts k inputs riAcc stAcc ri st1 h
    rw [StackStep.fpropLoop] at h
    cases h
    exact ⟨by simp, by simp⟩
  | cons c rest ih =>
    intro exts sts k inputs riAcc stAcc ri st1 h
    cases exts with
    | nil => rw [StackStep.fpropLoop] at h; simp at h
    | cons e exts2 =>
      cases sts with
      | nil => rw [StackStep.fpropLoop] at h; simp at h
      | cons s0 sts2 =>
        rw [StackStep.fpropLoop] at h
        cases hro : StackStep.residualOutput residual_start residual_stride k riAcc
            (c.FProp e (inputs ++ additional) padding s0).1 with
        | error m => rw [hro] at h; simp at h
        | ok output =>
          rw [hro] at h
          simp only [except_bind_ok] at h
          obtain ⟨hlen, hsh⟩ := ih (fun c2 hc2 => hpres c2 (List.mem_cons_of_mem _ hc2))
            exts2 sts2 (k + 1) [output] (riAcc ++ [output])
            (stAcc ++ [(c.FProp e (inputs ++ additional) padding s0).2]) ri st1 h
          constructor
          · simp at hlen ⊢; omega
          · rw [hsh]
            have hcs : ((c.FProp e (inputs ++ additional) padding s0).2).shape =
                s0.shape := hpres c (List.mem_cons_self _ _) e (inputs ++ additional) padding s0
            simp [hcs]

theorem graph_loop_keys (external_inputs : List (String × TVal)) (padding : Option Tensor)
    (state0 : List (String × TVal)) (seqs : List GraphSeq) :
    ∀ (gt : GraphTensors) (st1acc : List (String × TVal)) (gt2 : GraphTensors)
      (st1 : List (String × TVal)),
      GraphStep.fpropLoop external_inputs padding state0 seqs gt st1acc =
        Except.ok (gt2, st1) →
      (∀ s ∈ seqs, s.name ∉ st1acc.map Prod.fst) →
      (seqs.map GraphSeq.name).Nodup →
      st1.map Prod.fst = st1acc.map Prod.fst ++ seqs.map GraphSeq.name := by
  induction seqs with
  | nil =>
    intro gt st1acc gt2 st1 h hnotin hnod
    rw [GraphStep.fpropLoop] at h
    cases h
    simp
  | cons s rest ih =>
    intro gt st1acc gt2 st1 h hnotin hnod
    rw [GraphStep.fpropLoop] at h
    cases hext : GraphStep.seqExternal external_inputs s with
    | error m => rw [hext] at h; simp at h
    | ok ext =>
      rw [hext] at h
      simp only [except_bbind_ok] at h
      cases hgr : s.signature.inputs.mapM (resolveGroup gt) with
      | error m => rw [hgr] at h; simp at h
      | ok groups =>
        rw [hgr] at h
        simp only [except_bbind_ok] at h
        cases hhd : headE groups with
        | error m => rw [hhd] at h; simp at h
        | ok input_args =>
          rw [hhd] at h
          simp only [except_bbind_ok] at h
          cases hst : lookupE state0 s.name with
          | error m => rw [hst] at h; simp at h
          | ok st0 =>
            rw [hst] at h
            simp only [except_bbind_ok] at h
            cases hon : headE s.signature.outputs with
            | error m => rw [hon] at h; simp at h
            | ok outName =>
              rw [hon] at h
              simp only [except_bbind_ok] at h
              cases hstore : gt.StoreTensor outName
                  (s.step.FProp ext input_args padding st0).1 with
              | error m => rw [hstore] at h; simp at h
              | ok gtNext =>
                rw [hstore] at h
                simp only [except_bbind_ok] at h
                have hkey : s.name ∉ st1acc.map Prod.fst := hnotin s (List.mem_cons_self _ _)
                rw [setKey_of_not_mem st1acc s.name _ hkey] at h
                have hnotin2 : ∀ t ∈ rest,
                    t.name ∉ (st1acc ++ [(s.name, (s.step.FProp ext input_args padding
                      st0).2)]).map Prod.fst := by
                  intro t ht hmem
                  rw [List.map_append] at hmem
                  rcases List.mem_append.mp hmem with hm1 | hm2
                  · exact hnotin t (List.mem_cons_of_mem _ ht) hm1
                  · simp only [List.map_cons, List.map_nil, List.mem_singleton] at hm2
                    exact (List.nodup_cons.mp hnod).1
                      (hm2 ▸ List.mem_map_of_mem GraphSeq.name ht)
                rw [ih _ _ _ _ h hnotin2 (List.nodup_cons.mp hnod).2]
                simp

/-- C4: state-shape preservation of the three `Step` implementations of
the module. (a) `StatelessLayerStep.FProp` always returns the empty
`NestedMap` as its state (so empty maps to empty). (b) For `StackStep`,
assuming each child's `FProp` preserves the structural shape of its own
state, a successful `FProp` returns a `sub` list of the same length as the
child list whose entries' shapes positionally match those of `state0.sub`.
(c) For `GraphStep` (with the sub-step names distinct, as `CreateChild`
guarantees in the source), a successful `FProp` returns a state map keyed
by exactly the sub-step names, in declaration order. -/
theorem c4_state_shape :
    (∀ (layer : Layer) (eo : Option TVal) (si : SLInputs) (padding : Option Tensor)
      (st0 : TVal), (StatelessLayerStep.FProp layer eo si padding st0).2 = TVal.tmap []) ∧
    (∀ (sub : List StackChild) (residual_start residual_stride : Int) (ein : StackSub)
      (sin : StackStepInputs) (padding : Option Tensor) (st0 : StackSub) (out : StackOut)
      (st1 : StackSub),
      StackStep.FProp sub residual_start residual_stride ein sin padding st0 =
        Except.ok (out, st1) →
      (∀ c ∈ sub, ∀ e ins p s, ((c.FProp e ins p s).2).shape = s.shape) →
      st0.sub.length = sub.length →
      st1.sub.length = sub.length ∧ st1.sub.map TVal.shape = st0.sub.map TVal.shape) ∧
    (∀ (g : GraphStepModel) (ein : List (String × TVal)) (sin : TVal)
      (padding : Option Tensor) (st0 : List (String × TVal)) (out : TVal)
      (st1 : List (String × TVal)),
      GraphStep.FProp g ein sin padding st0 = Except.ok (out, st1) →
      (g.seq.map GraphSeq.name).Nodup →
      st1.map Prod.fst = g.seq.map GraphSeq.name) := by
  refine ⟨fun _ _ _ _ _ => rfl, ?_, ?_⟩
  · intro sub residual_start residual_stride ein sin padding st0 out st1 hfp hpres hlen0
    rw [StackStep.FProp] at hfp
    cases hloop : StackStep.fpropLoop residual_start residual_stride padding
        (stackAdditional sin) sub ein.sub st0.sub 0 sin.inputs
        [Tensor.concat sin.inputs] [] with
    | error m => rw [hloop] at hfp; simp at hfp
    | ok p =>
      rw [hloop] at hfp
      obtain ⟨riX, stX⟩ := p
      simp only [except_bbind_ok] at hfp
      obtain ⟨hlen, hsh⟩ := stack_loop_state_shape residual_start residual_stride padding
        (stackAdditional sin) sub hpres ein.sub st0.sub 0 sin.inputs
        [Tensor.concat sin.inputs] [] riX stX hloop
      have hst1 : st1 = ⟨stX⟩ := by
        cases sub with
        | nil => simp at hfp
        | cons c rest =>
          cases hlast : riX.getLast? with
          | none => rw [hlast] at hfp; simp at hfp
          | some o =>
            rw [hlast] at hfp
            exact (((Prod.mk.injEq _ _ _ _).mp (Except.ok.inj hfp)).2).symm
      subst hst1
      constructor
      · simpa using hlen
      · have htake : st0.sub.take sub.length = st0.sub := by
          rw [← hlen0]
          exact List.take_length st0.sub
        show stX.map TVal.shape = st0.sub.map TVal.shape
        rw [hsh, htake]
        simp
  · intro g ein sin padding st0 out st1 hfp hnod
    rw [GraphStep.FProp] at hfp
    have hst1 : GraphTensors.empty.StoreTensor "external_inputs" (TVal.tmap ein) =
        Except.ok ⟨[("external_inputs", TVal.tmap ein)]⟩ := rfl
    rw [hst1] at hfp
    simp only [except_bbind_ok] at hfp
    cases hst2 : (⟨[("external_inputs", TVal.tmap ein)]⟩ : GraphTensors).StoreTensor
        "step_inputs" sin with
    | error m => rw [hst2] at hfp; simp at hfp
    | ok gt2 =>
      rw [hst2] at hfp
      simp only [except_bbind_ok] at hfp
      cases hloop : GraphStep.fpropLoop ein padding st0 g.seq gt2 [] with
      | error m => rw [hloop] at hfp; simp at hfp
      | ok p =>
        rw [hloop] at hfp
        obtain ⟨gt3, st1X⟩ := p
        simp only [except_bbind_ok] at hfp
        have hkeys := graph_loop_keys ein padding st0 g.seq gt2 [] gt3 st1X hloop
          (fun s hs => by simp) hnod
        cases hgr : g.output_signature.inputs.mapM (resolveGroup gt3) with
        | error m => rw [hgr] at hfp; simp at hfp
        | ok groups =>
          rw [hgr] at hfp
          simp only [except_bbind_ok] at hfp
          cases hhd : headE groups with
          | error m => rw [hhd] at hfp; simp at hfp
          | ok output_tensors =>
            rw [hhd] at hfp
            simp only [except_bbind_ok] at hfp
            have : st1X = st1 := ((Prod.mk.injEq _ _ _ _).mp (Except.ok.inj hfp)).2
            subst this
            simpa using hkeys

/-- C4 witness: the three parts applied at concrete instances — an
identity layer, a one-child stack with state-preserving child, and the
probe graph. -/
theorem c4_witness :
    (StatelessLayerStep.FProp ⟨fun v _ => v⟩ none ⟨TVal.tmap []⟩ none (TVal.tmap [])).2 =
        TVal.tmap [] ∧
    ((⟨[TVal.tmap []]⟩ : StackSub).sub.length = ([cConst 0] : List StackChild).length ∧
      ∃ out st1, StackStep.FProp [cConst 0] (-1) 1 ⟨[TVal.tmap []]⟩ ⟨[Tensor.base 9], none⟩
          none ⟨[TVal.tmap []]⟩ = Except.ok (out, st1) ∧
        st1.sub.length = ([cConst 0] : List StackChild).length ∧
        st1.sub.map TVal.shape = (⟨[TVal.tmap []]⟩ : StackSub).sub.map TVal.shape) ∧
    ((probeModel.seq.map GraphSeq.name).Nodup ∧
      ∃ out st1, GraphStep.FProp probeModel [("probe_out_00", TVal.tmap [])]
          (TVal.tensor (Tensor.base 5)) none [("probe_out_00", TVal.tmap [])] =
          Except.ok (out, st1) ∧
        st1.map Prod.fst = probeModel.seq.map GraphSeq.name) := by
  refine ⟨c4_state_shape.1 ⟨fun v _ => v⟩ none ⟨TVal.tmap []⟩ none (TVal.tmap []),
    ⟨rfl, ?_⟩, ⟨by simp [probeModel], ?_⟩⟩
  · refine ⟨⟨Tensor.base 0⟩, ⟨[TVal.tmap []]⟩, by rfl, ?_⟩
    exact c4_state_shape.2.1 [cConst 0] (-1) 1 ⟨[TVal.tmap []]⟩ ⟨[Tensor.base 9], none⟩
      none ⟨[TVal.tmap []]⟩ ⟨Tensor.base 0⟩ ⟨[TVal.tmap []]⟩ (by rfl)
      (fun c hc => by
        rcases List.mem_singleton.mp hc with rfl
        intro e ins p s
        rfl)
      rfl
  · refine ⟨TVal.tensor (Tensor.base 0), [("probe_out_00", TVal.tmap [])], by rfl, ?_⟩
    exact c4_state_shape.2.2 probeModel [("probe_out_00", TVal.tmap [])]
      (TVal.tensor (Tensor.base 5)) none [("probe_out_00", TVal.tmap [])]
      (TVal.tensor (Tensor.base 0)) [("probe_out_00", TVal.tmap [])] (by rfl)
      (by simp [probeModel])

end Lingvo
